import Mathlib

/-!
Verification of `pii-transform`: a shallow embedding of the command-line
application `src/pii_transform/app/transform.py` together with a model of the
substitution engine described by the design document (the engine package
itself — `pii_transform.api.PiiTransformer` and the `POLICIES` catalog of
`pii_transform.helper.substitution` — is consumed by the script but is not
part of this repository's sources, so it is modelled from the spec where a
claim needs it).

The CLI script is embedded as a pure function over an explicit environment:
every external effect (reading a JSON file, constructing the transformer,
loading the document and the PII collection, transforming, dumping) is a
field of `Env` returning `Except`, and `process`/`main` return the ordered
trace of effect events together with the final outcome.
-/

namespace PiiTransform

/-- A JSON value, the result of `json.load` on a policy file
(`get_policy` in `transform.py` returns the parsed nested structure). -/
inductive Json where
  | null
  | bool (b : Bool)
  | num (n : Int)
  | str (s : String)
  | arr (elems : List Json)
  | obj (fields : List (String × Json))

/-- The value held by `args.default_policy` when the transformer is
constructed: `argparse` leaves it `None` (`null`) or a string from the
`choices` list (`name`), and `process` may replace it by the mapping
`{"name": "hash", "key": hash_key}` (`hashDict`). -/
inductive PolicyValue where
  | null
  | name (s : String)
  | hashDict (key : String)
  deriving DecidableEq, Repr

/-- An error escaping one of the steps of `process` (a Python exception:
`ConfigError`, `DataIntegrityError`, `PolicyError`, or an I/O error). -/
inductive PErr where
  | config
  | dataIntegrity
  | policyErr
  | ioError
  deriving DecidableEq, Repr

/-- One observable effect performed by `process`/`main`, in order. -/
inductive Event where
  | logMsg (msg : String)
  | loadPolicy (path : String)
  | construct
  | loadDoc (path : String)
  | loadPii (path : String)
  | transform
  | dump (path : String)
  | printErr (e : PErr)
  deriving DecidableEq, Repr

/-- The parsed command-line arguments (`argparse.Namespace` of
`parse_args`). Options without a default are `None` in Python, hence
`Option String` here; `verbose` defaults to true (`-q` stores false). -/
structure Args where
  infile : String
  pii : String
  outfile : String
  default_policy : Option String
  policy_file : Option String
  placeholder_file : Option String
  hash_key : Option String
  verbose : Bool
  reraise : Bool
  show_stats : Bool
  show_tasks : Bool
  deriving Repr

/-- The external world `process` interacts with: each step may fail with an
exception. `construct` receives exactly the arguments passed to the
`PiiTransformer` constructor. -/
structure Env where
  readJson : String → Except PErr Json
  construct : PolicyValue → Option Json → Option String → Except PErr Unit
  loadDoc : String → Except PErr Unit
  loadPii : String → Except PErr Unit
  transform : Except PErr Unit
  dump : String → Except PErr Unit

/-- Python truthiness of an optional string: `None` and `""` are falsy. -/
def truthy : Option String → Bool
  | none => false
  | some s => s ≠ ""

/-- The `Log` class: `__call__` writes the message to stderr when
constructed with `verbose=True` and does nothing otherwise. Here the
events a call emits. -/
def logEv (verbose : Bool) (msg : String) : List Event :=
  if verbose then [Event.logMsg msg] else []

/-- An output channel of the script (`print` writes to one of them). -/
inductive Channel where
  | stdout
  | stderr
  deriving DecidableEq, Repr

/-- The writes one call of a `Log` object performs: `__call__` does
`print(msg, *args, file=sys.stderr)` when `self._v` is true, nothing
otherwise. -/
def logWrites (verbose : Bool) (msg : String) : List (Channel × String) :=
  if verbose then [(Channel.stderr, msg)] else []

/-- Convert the raw `args.default_policy` (`None` or a choice string)
into the value domain that also admits the hash dict. -/
def policyValueOfOpt : Option String → PolicyValue
  | none => PolicyValue.null
  | some s => PolicyValue.name s

/-- Lines 41-42 of `transform.py`: if `args.hash_key` is truthy and
`args.default_policy == "hash"`, the default policy becomes the dict
`{"name": "hash", "key": args.hash_key}`; otherwise it is left unchanged. -/
def effectiveDefaultPolicy (hash_key default_policy : Option String) :
    PolicyValue :=
  if truthy hash_key = true ∧ default_policy = some "hash" then
    PolicyValue.hashDict (hash_key.getD "")
  else
    policyValueOfOpt default_policy

/-- `get_policy(policy_file, log)`: returns `None` when `policy_file` is
falsy, otherwise logs and returns the JSON-parsed file content (the read
may raise, modelled by `Except`). Returns the emitted events alongside. -/
def get_policy (policy_file : Option String) (verbose : Bool)
    (readJson : String → Except PErr Json) :
    List Event × Except PErr (Option Json) :=
  match policy_file with
  | none => ([], Except.ok none)
  | some p =>
    if p = "" then ([], Except.ok none)
    else
      (logEv verbose (". Loading policy file: " ++ p) ++ [Event.loadPolicy p],
       (readJson p).map some)

/-- `process(args)`: builds the default policy, loads the policy file,
constructs the `PiiTransformer`, loads the document, loads the PII
collection, transforms, and dumps the output — stopping at the first step
that raises. Returns the ordered event trace and the outcome. -/
def process (args : Args) (env : Env) : List Event × Except PErr Unit :=
  let dp := effectiveDefaultPolicy args.hash_key args.default_policy
  let pol := get_policy args.policy_file args.verbose env.readJson
  match pol.snd with
  | Except.error e => (pol.fst, Except.error e)
  | Except.ok policy =>
    let e1 := pol.fst ++ [Event.construct]
    match env.construct dp policy args.placeholder_file with
    | Except.error e => (e1, Except.error e)
    | Except.ok _ =>
      let e2 := e1 ++ logEv args.verbose (". Loading document: " ++ args.infile)
                ++ [Event.loadDoc args.infile]
      match env.loadDoc args.infile with
      | Except.error e => (e2, Except.error e)
      | Except.ok _ =>
        let e3 := e2 ++ logEv args.verbose (". Loading Pii collection: " ++ args.pii)
                  ++ [Event.loadPii args.pii]
        match env.loadPii args.pii with
        | Except.error e => (e3, Except.error e)
        | Except.ok _ =>
          let e4 := e3 ++ logEv args.verbose (". Processing and dumping to: " ++ args.outfile)
                    ++ [Event.transform]
          match env.transform with
          | Except.error e => (e4, Except.error e)
          | Except.ok _ =>
            let e5 := e4 ++ [Event.dump args.outfile]
            match env.dump args.outfile with
            | Except.error e => (e5, Except.error e)
            | Except.ok _ => (e5, Except.ok ())

/-- The result of running `main`: normal return, `sys.exit(code)`, or a
re-raised exception. -/
inductive Outcome where
  | success
  | exited (code : Nat)
  | raised (e : PErr)
  deriving DecidableEq, Repr

/-- `main` (lines 89-100): runs `process` in a `try`; on an exception it
prints `Error: {e}` to stderr and then re-raises when `--reraise` was
given, else calls `sys.exit(1)`. -/
def main (args : Args) (env : Env) : List Event × Outcome :=
  let r := process args env
  match r.snd with
  | Except.ok _ => (r.fst, Outcome.success)
  | Except.error e =>
    let tr := r.fst ++ [Event.printErr e]
    if args.reraise then (tr, Outcome.raised e) else (tr, Outcome.exited 1)

/-- The events `process` has emitted once the policy file step is done. -/
def policyTrace (args : Args) (env : Env) : List Event :=
  (get_policy args.policy_file args.verbose env.readJson).fst

/-- The events emitted once the transformer constructor has been called. -/
def constructTrace (args : Args) (env : Env) : List Event :=
  policyTrace args env ++ [Event.construct]

/-- The events emitted once the document load has been attempted. -/
def docTrace (args : Args) (env : Env) : List Event :=
  constructTrace args env
    ++ logEv args.verbose (". Loading document: " ++ args.infile)
    ++ [Event.loadDoc args.infile]

/-- The events emitted once the PII collection load has been attempted. -/
def piiTrace (args : Args) (env : Env) : List Event :=
  docTrace args env
    ++ logEv args.verbose (". Loading Pii collection: " ++ args.pii)
    ++ [Event.loadPii args.pii]

/-- The events emitted once the transformation has been attempted. -/
def transformTrace (args : Args) (env : Env) : List Event :=
  piiTrace args env
    ++ logEv args.verbose (". Processing and dumping to: " ++ args.outfile)
    ++ [Event.transform]

/-- The events emitted once the output dump has been attempted. -/
def dumpTrace (args : Args) (env : Env) : List Event :=
  transformTrace args env ++ [Event.dump args.outfile]

/-- Modelled from the spec: the catalog `POLICIES` lives in
`pii_transform.helper.substitution`, which is not among this repository's
sources; the spec's Policy Registry (section 4.1) lists the built-in
policies `identity`, `label`, `hash`, `placeholder` and `annotate`. -/
def POLICIES : List String :=
  ["identity", "label", "hash", "placeholder", "annotate"]

/-- The raw option values handed to `parse_args` before validation (each
optional flag either absent or given with a string value). -/
structure RawArgs where
  infile : String
  pii : String
  outfile : String
  default_policy : Option String
  policy_file : Option String
  placeholder_file : Option String
  hash_key : Option String
  verbose : Bool
  reraise : Bool
  show_stats : Bool
  show_tasks : Bool
  deriving Repr

/-- `parse_args`: `--default-policy` is declared with `choices=POLICIES`,
so argparse rejects (exits with a usage error, before `process` runs) any
value outside the catalog; every other field is taken as given. -/
def parse_args (raw : RawArgs) : Except String Args :=
  match raw.default_policy with
  | none =>
    Except.ok ⟨raw.infile, raw.pii, raw.outfile, none, raw.policy_file,
      raw.placeholder_file, raw.hash_key, raw.verbose, raw.reraise,
      raw.show_stats, raw.show_tasks⟩
  | some v =>
    if v ∈ POLICIES then
      Except.ok ⟨raw.infile, raw.pii, raw.outfile, some v, raw.policy_file,
        raw.placeholder_file, raw.hash_key, raw.verbose, raw.reraise,
        raw.show_stats, raw.show_tasks⟩
    else
      Except.error ("argument --default-policy: invalid choice: " ++ v)

/-- The whole entry point: `main` first calls `parse_args` (outside the
`try` block — an argparse rejection aborts before anything else runs),
then runs `process` under the exception handler. -/
def mainFull (raw : RawArgs) (env : Env) :
    Except String (List Event × Outcome) :=
  match parse_args raw with
  | Except.error e => Except.error e
  | Except.ok args => Except.ok (main args env)

/-!
## The substitution engine, modelled from the spec

The engine (`pii_transform.api.PiiTransformer` and its helpers) is imported
by the script but its sources are not in this repository; the definitions
below follow the design document: data model (section 3), Policy Registry
and Resolver (4.1, 4.2), Chunk Rewriter (4.3), Document Reassembler (4.4).
-/

/-- Modelled from the spec: a Document Chunk — an id and a character
string (section 3). -/
structure Chunk where
  id : String
  text : String
  deriving DecidableEq, Repr

/-- Modelled from the spec: a node of a tree-variant document — leaf text
always lives in chunks, structural nodes hold children (section 3). -/
inductive TreeNode where
  | leaf (chunk : Chunk)
  | node (id : String) (children : List TreeNode)

/-- Modelled from the spec: a Document is one of three structural
variants — sequence, tree, or table of chunks (section 3). -/
inductive Document where
  | seq (chunks : List Chunk)
  | tree (roots : List TreeNode)
  | table (rows : List (List Chunk))

/-- Modelled from the spec: a PII Occurrence — entity type, owning chunk
id, start offset and length within the chunk's original text, and the
original text value (section 3). -/
structure PiiOccurrence where
  entityType : String
  chunkid : String
  start : Nat
  length : Nat
  value : String
  deriving DecidableEq, Repr

/-- Modelled from the spec: a bound policy from the Registry (section
4.1) — `identity`, `label` (fixed per-type tag), `hash` (deterministic
keyed digest), `placeholder` (per-type substitute table), `annotate`. -/
inductive Policy where
  | identity
  | label
  | hash (key : String)
  | placeholder (table : List (String × String))
  | annotate
  deriving DecidableEq, Repr

/-- A deterministic digest of a string (stand-in for the keyed hash the
spec requires of the `hash` policy: a pure function of its input). -/
def digest (s : String) : Nat :=
  s.foldl (fun h c => (h * 131 + c.toNat) % 1000000007) 5381

/-- Modelled from the spec: each policy is a pure function
`(occurrence, params) -> replacement` (section 4.1). -/
def applyPolicy : Policy → PiiOccurrence → String
  | Policy.identity, o => o.value
  | Policy.label, o => "<" ++ o.entityType ++ ">"
  | Policy.hash key, o => "H" ++ toString (digest (key ++ o.value))
  | Policy.placeholder table, o =>
    match table.lookup o.entityType with
    | some v => v
    | none => o.value
  | Policy.annotate, o => o.value ++ "[" ++ o.entityType ++ "]"

/-- Modelled from the spec: the resolved Policy Configuration a
Transformer holds — optional default policy and per-entity-type
overrides (sections 3, 4.2). -/
structure TransformerCfg where
  defaultPolicy : Option Policy
  perType : List (String × Policy)
  deriving Repr

/-- Modelled from the spec: the Policy Resolver — per-type override,
else the default policy, else `identity` (section 4.2). -/
def resolvePolicy (cfg : TransformerCfg) (entityType : String) : Policy :=
  match cfg.perType.lookup entityType with
  | some p => p
  | none =>
    match cfg.defaultPolicy with
    | some p => p
    | none => Policy.identity

/-- The replacement string for one occurrence: resolve its policy and
apply it. -/
def replacementFor (cfg : TransformerCfg) (o : PiiOccurrence) : String :=
  applyPolicy (resolvePolicy cfg o.entityType) o

/-- Two occurrences conflict when their `[start, start+length)` ranges
share a character position, or when they have identical `start`
(ambiguous ordering) — both rejected per sections 3 and 4.3. -/
def occConflict (a b : PiiOccurrence) : Bool :=
  (a.start < b.start + b.length && b.start < a.start + a.length) ||
    a.start == b.start

/-- Some pair of occurrences in the list conflicts. -/
def anyConflict : List PiiOccurrence → Bool
  | [] => false
  | o :: rest => rest.any (fun p => occConflict o p) || anyConflict rest

/-- An occurrence's span fits inside the chunk text. -/
def inBounds (text : String) (o : PiiOccurrence) : Bool :=
  o.start + o.length ≤ text.length

/-- Modelled from the spec: the `DataIntegrityError` raised on a malformed
document/occurrence relationship — overlapping or ambiguous spans, or an
out-of-bounds span (section 7). -/
inductive DataIntegrityError where
  | overlap
  | outOfBounds
  deriving DecidableEq, Repr

/-- Splice `repl` over `[start, start+len)` of `text`. -/
def splice (text : String) (start len : Nat) (repl : String) : String :=
  text.take start ++ repl ++ text.drop (start + len)

/-- Insert into a start-descending list, keeping it start-descending. -/
def insertDesc (o : PiiOccurrence) :
    List PiiOccurrence → List PiiOccurrence
  | [] => [o]
  | p :: rest =>
    if p.start ≤ o.start then o :: p :: rest else p :: insertDesc o rest

/-- Sort occurrences by `start` descending (section 4.3). -/
def sortDesc : List PiiOccurrence → List PiiOccurrence
  | [] => []
  | o :: rest => insertDesc o (sortDesc rest)

/-- Modelled from the spec: the Chunk Rewriter (section 4.3) — reject
conflicting or out-of-bounds occurrences before splicing begins, then
splice replacements right-to-left so earlier offsets never shift. -/
def rewriteText (repl : PiiOccurrence → String) (text : String)
    (occs : List PiiOccurrence) : Except DataIntegrityError String :=
  if anyConflict occs then Except.error DataIntegrityError.overlap
  else if occs.any (fun o => ! inBounds text o) then
    Except.error DataIntegrityError.outOfBounds
  else
    Except.ok ((sortDesc occs).foldl
      (fun t o => splice t o.start o.length (repl o)) text)

/-- The occurrences owned by chunk `cid` (group-by chunk id). -/
def occsFor (occs : List PiiOccurrence) (cid : String) :
    List PiiOccurrence :=
  occs.filter (fun o => o.chunkid == cid)

/-- Rewrite one chunk: same id, rewritten text. -/
def rewriteChunk (repl : PiiOccurrence → String) (occs : List PiiOccurrence)
    (c : Chunk) : Except DataIntegrityError Chunk :=
  (rewriteText repl c.text (occsFor occs c.id)).map
    (fun t => { id := c.id, text := t })

/-- Rewrite a list of chunks in order, stopping at the first failure. -/
def rewriteChunks (repl : PiiOccurrence → String)
    (occs : List PiiOccurrence) :
    List Chunk → Except DataIntegrityError (List Chunk)
  | [] => Except.ok []
  | c :: cs =>
    match rewriteChunk repl occs c with
    | Except.error e => Except.error e
    | Except.ok c2 =>
      match rewriteChunks repl occs cs with
      | Except.error e => Except.error e
      | Except.ok cs2 => Except.ok (c2 :: cs2)

mutual

/-- Rewrite a tree node depth-first: leaves through the Chunk Rewriter,
structural nodes rebuilt with rewritten children in order (section 4.4). -/
def rewriteNode (repl : PiiOccurrence → String)
    (occs : List PiiOccurrence) :
    TreeNode → Except DataIntegrityError TreeNode
  | TreeNode.leaf c => (rewriteChunk repl occs c).map TreeNode.leaf
  | TreeNode.node i children =>
    (rewriteNodes repl occs children).map (TreeNode.node i)

/-- Rewrite a list of tree nodes in order. -/
def rewriteNodes (repl : PiiOccurrence → String)
    (occs : List PiiOccurrence) :
    List TreeNode → Except DataIntegrityError (List TreeNode)
  | [] => Except.ok []
  | t :: ts =>
    match rewriteNode repl occs t with
    | Except.error e => Except.error e
    | Except.ok t2 =>
      match rewriteNodes repl occs ts with
      | Except.error e => Except.error e
      | Except.ok ts2 => Except.ok (t2 :: ts2)

end

/-- Rewrite table rows cell by cell (section 4.4). -/
def rewriteRows (repl : PiiOccurrence → String)
    (occs : List PiiOccurrence) :
    List (List Chunk) → Except DataIntegrityError (List (List Chunk))
  | [] => Except.ok []
  | row :: rows =>
    match rewriteChunks repl occs row with
    | Except.error e => Except.error e
    | Except.ok row2 =>
      match rewriteRows repl occs rows with
      | Except.error e => Except.error e
      | Except.ok rows2 => Except.ok (row2 :: rows2)

/-- Modelled from the spec: the Transformer's `apply` — the Document
Reassembler walks the source document's variant and produces an output
document of the identical shape with each leaf chunk rewritten
(sections 4.4, 4.5, 6). -/
def applyTrf (cfg : TransformerCfg) (occs : List PiiOccurrence) :
    Document → Except DataIntegrityError Document
  | Document.seq chunks =>
    (rewriteChunks (replacementFor cfg) occs chunks).map Document.seq
  | Document.tree roots =>
    (rewriteNodes (replacementFor cfg) occs roots).map Document.tree
  | Document.table rows =>
    (rewriteRows (replacementFor cfg) occs rows).map Document.table

/-- The shape of a tree node: ids and nesting, text erased. -/
inductive NodeShape where
  | leaf (id : String)
  | node (id : String) (children : List NodeShape)

/-- The structural shape of a document: variant, chunk ids, nesting, rows
and columns, ordering — everything except leaf text. -/
inductive Shape where
  | seq (ids : List String)
  | tree (roots : List NodeShape)
  | table (rows : List (List String))

mutual

/-- Erase the text of a tree node, keeping ids and nesting. -/
def nodeShape : TreeNode → NodeShape
  | TreeNode.leaf c => NodeShape.leaf c.id
  | TreeNode.node i children => NodeShape.node i (nodeShapes children)

/-- Erase the text of a list of tree nodes. -/
def nodeShapes : List TreeNode → List NodeShape
  | [] => []
  | t :: ts => nodeShape t :: nodeShapes ts

end

/-- The structural shape of a document. -/
def shape : Document → Shape
  | Document.seq chunks => Shape.seq (chunks.map Chunk.id)
  | Document.tree roots => Shape.tree (nodeShapes roots)
  | Document.table rows => Shape.table (rows.map (fun r => r.map Chunk.id))

mutual

/-- The leaf chunks of a tree node, depth-first. -/
def nodeChunks : TreeNode → List Chunk
  | TreeNode.leaf c => [c]
  | TreeNode.node _ children => nodeChunksL children

/-- The leaf chunks of a list of tree nodes. -/
def nodeChunksL : List TreeNode → List Chunk
  | [] => []
  | t :: ts => nodeChunks t ++ nodeChunksL ts

end

/-- All leaf chunks of a document, in traversal order. -/
def docChunks : Document → List Chunk
  | Document.seq chunks => chunks
  | Document.tree roots => nodeChunksL roots
  | Document.table rows => rows.flatten

/-!
## Characterization of `process`, branch by branch
-/

theorem process_eq_of_policy_error (args : Args) (env : Env) (e : PErr)
    (h : (get_policy args.policy_file args.verbose env.readJson).snd
        = Except.error e) :
    process args env = (policyTrace args env, Except.error e) := by
  simp [process, policyTrace, h]

theorem process_eq_of_construct_error (args : Args) (env : Env)
    (policy : Option Json) (e : PErr)
    (hp : (get_policy args.policy_file args.verbose env.readJson).snd
        = Except.ok policy)
    (hc : env.construct (effectiveDefaultPolicy args.hash_key args.default_policy)
        policy args.placeholder_file = Except.error e) :
    process args env = (constructTrace args env, Except.error e) := by
  simp [process, policyTrace, constructTrace, hp, hc]

theorem process_eq_of_doc_error (args : Args) (env : Env)
    (policy : Option Json) (u : Unit) (e : PErr)
    (hp : (get_policy args.policy_file args.verbose env.readJson).snd
        = Except.ok policy)
    (hc : env.construct (effectiveDefaultPolicy args.hash_key args.default_policy)
        policy args.placeholder_file = Except.ok u)
    (hd : env.loadDoc args.infile = Except.error e) :
    process args env = (docTrace args env, Except.error e) := by
  simp [process, policyTrace, constructTrace, docTrace, hp, hc, hd]

theorem process_eq_of_pii_error (args : Args) (env : Env)
    (policy : Option Json) (u : Unit) (e : PErr)
    (hp : (get_policy args.policy_file args.verbose env.readJson).snd
        = Except.ok policy)
    (hc : env.construct (effectiveDefaultPolicy args.hash_key args.default_policy)
        policy args.placeholder_file = Except.ok u)
    (hd : env.loadDoc args.infile = Except.ok ())
    (hi : env.loadPii args.pii = Except.error e) :
    process args env = (piiTrace args env, Except.error e) := by
  simp [process, policyTrace, constructTrace, docTrace, piiTrace, hp, hc, hd, hi]

theorem process_eq_of_transform_error (args : Args) (env : Env)
    (policy : Option Json) (u : Unit) (e : PErr)
    (hp : (get_policy args.policy_file args.verbose env.readJson).snd
        = Except.ok policy)
    (hc : env.construct (effectiveDefaultPolicy args.hash_key args.default_policy)
        policy args.placeholder_file = Except.ok u)
    (hd : env.loadDoc args.infile = Except.ok ())
    (hi : env.loadPii args.pii = Except.ok ())
    (ht : env.transform = Except.error e) :
    process args env = (transformTrace args env, Except.error e) := by
  simp [process, policyTrace, constructTrace, docTrace, piiTrace,
    transformTrace, hp, hc, hd, hi, ht]

theorem process_eq_of_dump_error (args : Args) (env : Env)
    (policy : Option Json) (u : Unit) (e : PErr)
    (hp : (get_policy args.policy_file args.verbose env.readJson).snd
        = Except.ok policy)
    (hc : env.construct (effectiveDefaultPolicy args.hash_key args.default_policy)
        policy args.placeholder_file = Except.ok u)
    (hd : env.loadDoc args.infile = Except.ok ())
    (hi : env.loadPii args.pii = Except.ok ())
    (ht : env.transform = Except.ok ())
    (hu : env.dump args.outfile = Except.error e) :
    process args env = (dumpTrace args env, Except.error e) := by
  simp [process, policyTrace, constructTrace, docTrace, piiTrace,
    transformTrace, dumpTrace, hp, hc, hd, hi, ht, hu]

theorem process_eq_of_all_ok (args : Args) (env : Env)
    (policy : Option Json) (u : Unit)
    (hp : (get_policy args.policy_file args.verbose env.readJson).snd
        = Except.ok policy)
    (hc : env.construct (effectiveDefaultPolicy args.hash_key args.default_policy)
        policy args.placeholder_file = Except.ok u)
    (hd : env.loadDoc args.infile = Except.ok ())
    (hi : env.loadPii args.pii = Except.ok ())
    (ht : env.transform = Except.ok ())
    (hu : env.dump args.outfile = Except.ok ()) :
    process args env = (dumpTrace args env, Except.ok ()) := by
  simp [process, policyTrace, constructTrace, docTrace, piiTrace,
    transformTrace, dumpTrace, hp, hc, hd, hi, ht, hu]

/-!
## Events in the policy-loading prefix of the trace
-/

theorem policyTrace_events (args : Args) (env : Env) :
    ∀ e ∈ policyTrace args env,
      (∃ m, e = Event.logMsg m) ∨ ∃ q, e = Event.loadPolicy q := by
  intro e he
  unfold policyTrace get_policy at he
  cases hpf : args.policy_file with
  | none => rw [hpf] at he; simp at he
  | some p =>
    rw [hpf] at he
    by_cases hp : p = ""
    · simp [hp] at he
    · simp only [if_neg hp] at he
      cases hv : args.verbose with
      | false => simp [logEv, hv] at he; exact Or.inr ⟨p, he⟩
      | true =>
        simp [logEv, hv] at he
        rcases he with he | he
        · exact Or.inl ⟨_, he⟩
        · exact Or.inr ⟨p, he⟩

theorem policyTrace_no_loadDoc (args : Args) (env : Env) (p : String) :
    Event.loadDoc p ∉ policyTrace args env := by
  intro h
  rcases policyTrace_events args env _ h with ⟨m, hm⟩ | ⟨q, hq⟩
  · simp at hm
  · simp at hq

theorem policyTrace_no_dump (args : Args) (env : Env) (p : String) :
    Event.dump p ∉ policyTrace args env := by
  intro h
  rcases policyTrace_events args env _ h with ⟨m, hm⟩ | ⟨q, hq⟩
  · simp at hm
  · simp at hq

theorem policyTrace_no_logMsg_of_quiet (args : Args) (env : Env) (m : String)
    (hv : args.verbose = false) : Event.logMsg m ∉ policyTrace args env := by
  intro h
  unfold policyTrace get_policy at h
  cases hpf : args.policy_file with
  | none => rw [hpf] at h; simp at h
  | some p =>
    rw [hpf] at h
    by_cases hp : p = ""
    · simp [hp] at h
    · simp [if_neg hp, logEv, hv] at h

/-!
## Splitting the traces at the constructor call
-/

theorem docTrace_split (args : Args) (env : Env) :
    ∃ r, docTrace args env = policyTrace args env ++ Event.construct :: r :=
  ⟨logEv args.verbose (". Loading document: " ++ args.infile)
      ++ [Event.loadDoc args.infile],
   by simp [docTrace, constructTrace]⟩

theorem piiTrace_split (args : Args) (env : Env) :
    ∃ r, piiTrace args env = policyTrace args env ++ Event.construct :: r := by
  obtain ⟨r, hr⟩ := docTrace_split args env
  exact ⟨r ++ (logEv args.verbose (". Loading Pii collection: " ++ args.pii)
      ++ [Event.loadPii args.pii]), by simp [piiTrace, hr]⟩

theorem transformTrace_split (args : Args) (env : Env) :
    ∃ r, transformTrace args env
        = policyTrace args env ++ Event.construct :: r := by
  obtain ⟨r, hr⟩ := piiTrace_split args env
  exact ⟨r ++ (logEv args.verbose (". Processing and dumping to: " ++ args.outfile)
      ++ [Event.transform]), by simp [transformTrace, hr]⟩

theorem dumpTrace_split (args : Args) (env : Env) :
    ∃ r, dumpTrace args env = policyTrace args env ++ Event.construct :: r := by
  obtain ⟨r, hr⟩ := transformTrace_split args env
  exact ⟨r ++ [Event.dump args.outfile], by simp [dumpTrace, hr]⟩

theorem split_mem_of_loadDoc {args : Args} {env : Env} {p : String}
    {tr r : List Event}
    (htr : tr = policyTrace args env ++ Event.construct :: r)
    (hmem : Event.loadDoc p ∈ tr) :
    ∃ l1 l2, tr = l1 ++ Event.construct :: l2 ∧
      Event.loadDoc p ∉ l1 ∧ Event.loadDoc p ∈ l2 := by
  refine ⟨policyTrace args env, r, htr, policyTrace_no_loadDoc args env p, ?_⟩
  rw [htr] at hmem
  simp only [List.mem_append, List.mem_cons] at hmem
  rcases hmem with h | h | h
  · exact absurd h (policyTrace_no_loadDoc args env p)
  · exact absurd h (by simp)
  · exact h

/-!
## Claim theorems about the command-line application
-/

/-- C2: for every run of `process`, the `PiiTransformer` is constructed
— with the actual policy arguments, and successfully — before the source
document is loaded: whenever a document-load event occurs in the trace,
transformer construction has completed (so a configuration error raised
by the constructor prevents the document from ever being touched), and
the construction event strictly precedes the document-load event. -/
theorem claim_C2_construct_before_document_load (args : Args) (env : Env)
    (p : String) (h : Event.loadDoc p ∈ (process args env).fst) :
    (∃ policy u,
      (get_policy args.policy_file args.verbose env.readJson).snd
          = Except.ok policy ∧
      env.construct (effectiveDefaultPolicy args.hash_key args.default_policy)
          policy args.placeholder_file = Except.ok u) ∧
    ∃ l1 l2, (process args env).fst = l1 ++ Event.construct :: l2 ∧
      Event.loadDoc p ∉ l1 ∧ Event.loadDoc p ∈ l2 := by
  cases hp : (get_policy args.policy_file args.verbose env.readJson).snd with
  | error e =>
    rw [process_eq_of_policy_error args env e hp] at h
    exact absurd h (policyTrace_no_loadDoc args env p)
  | ok policy =>
    cases hc : env.construct
        (effectiveDefaultPolicy args.hash_key args.default_policy)
        policy args.placeholder_file with
    | error e =>
      rw [process_eq_of_construct_error args env policy e hp hc] at h
      simp [constructTrace] at h
      exact absurd h (policyTrace_no_loadDoc args env p)
    | ok u =>
      cases hd : env.loadDoc args.infile with
      | error e =>
        rw [process_eq_of_doc_error args env policy u e hp hc hd] at h ⊢
        refine ⟨⟨policy, u, rfl, hc⟩, ?_⟩
        obtain ⟨r, hr⟩ := docTrace_split args env
        exact split_mem_of_loadDoc hr h
      | ok u2 =>
        cases u2
        cases hi : env.loadPii args.pii with
        | error e =>
          rw [process_eq_of_pii_error args env policy u e hp hc hd hi] at h ⊢
          refine ⟨⟨policy, u, rfl, hc⟩, ?_⟩
          obtain ⟨r, hr⟩ := piiTrace_split args env
          exact split_mem_of_loadDoc hr h
        | ok u3 =>
          cases u3
          cases ht : env.transform with
          | error e =>
            rw [process_eq_of_transform_error args env policy u e
                hp hc hd hi ht] at h ⊢
            refine ⟨⟨policy, u, rfl, hc⟩, ?_⟩
            obtain ⟨r, hr⟩ := transformTrace_split args env
            exact split_mem_of_loadDoc hr h
          | ok u4 =>
            cases u4
            cases hu : env.dump args.outfile with
            | error e =>
              rw [process_eq_of_dump_error args env policy u e
                  hp hc hd hi ht hu] at h ⊢
              refine ⟨⟨policy, u, rfl, hc⟩, ?_⟩
              obtain ⟨r, hr⟩ := dumpTrace_split args env
              exact split_mem_of_loadDoc hr h
            | ok u5 =>
              cases u5
              rw [process_eq_of_all_ok args env policy u hp hc hd hi ht hu] at h ⊢
              refine ⟨⟨policy, u, rfl, hc⟩, ?_⟩
              obtain ⟨r, hr⟩ := dumpTrace_split args env
              exact split_mem_of_loadDoc hr h

/-- A concrete command line for the witnesses. -/
def sampleArgs : Args :=
  ⟨"in.yaml", "pii.json", "out.yaml", some "label", none, none, none,
   false, false, false, false⟩

/-- A concrete environment in which every step succeeds. -/
def sampleEnv : Env :=
  ⟨fun _ => Except.ok Json.null, fun _ _ _ => Except.ok (),
   fun _ => Except.ok (), fun _ => Except.ok (),
   Except.ok (), fun _ => Except.ok ()⟩

theorem claim_C2_witness :
    Event.loadDoc "in.yaml" ∈ (process sampleArgs sampleEnv).fst ∧
    ((∃ policy u,
      (get_policy sampleArgs.policy_file sampleArgs.verbose
          sampleEnv.readJson).snd = Except.ok policy ∧
      sampleEnv.construct
          (effectiveDefaultPolicy sampleArgs.hash_key sampleArgs.default_policy)
          policy sampleArgs.placeholder_file = Except.ok u) ∧
    ∃ l1 l2, (process sampleArgs sampleEnv).fst
        = l1 ++ Event.construct :: l2 ∧
      Event.loadDoc "in.yaml" ∉ l1 ∧ Event.loadDoc "in.yaml" ∈ l2) := by
  have h : Event.loadDoc "in.yaml" ∈ (process sampleArgs sampleEnv).fst := by
    decide
  exact ⟨h, claim_C2_construct_before_document_load sampleArgs sampleEnv _ h⟩

theorem docTrace_no_dump (args : Args) (env : Env) (q : String) :
    Event.dump q ∉ docTrace args env := by
  cases hv : args.verbose <;>
    simp [docTrace, constructTrace, logEv, hv, policyTrace_no_dump args env q]

theorem piiTrace_no_dump (args : Args) (env : Env) (q : String) :
    Event.dump q ∉ piiTrace args env := by
  cases hv : args.verbose <;>
    simp [piiTrace, docTrace, constructTrace, logEv, hv,
      policyTrace_no_dump args env q]

theorem transformTrace_no_dump (args : Args) (env : Env) (q : String) :
    Event.dump q ∉ transformTrace args env := by
  cases hv : args.verbose <;>
    simp [transformTrace, piiTrace, docTrace, constructTrace, logEv, hv,
      policyTrace_no_dump args env q]

/-- C6: the output document is dumped only after the transformation has
returned successfully — a dump event in the trace implies the transform
step succeeded, and if the transformation raises an error no output file
is ever written. -/
theorem claim_C6_no_dump_on_transform_error (args : Args) (env : Env) :
    (∀ q, Event.dump q ∈ (process args env).fst →
       env.transform = Except.ok ()) ∧
    (∀ e q, env.transform = Except.error e →
       Event.dump q ∉ (process args env).fst) := by
  have part1 : ∀ q, Event.dump q ∈ (process args env).fst →
      env.transform = Except.ok () := by
    intro q hq
    cases hp : (get_policy args.policy_file args.verbose env.readJson).snd with
    | error e =>
      rw [process_eq_of_policy_error args env e hp] at hq
      exact absurd hq (policyTrace_no_dump args env q)
    | ok policy =>
      cases hc : env.construct
          (effectiveDefaultPolicy args.hash_key args.default_policy)
          policy args.placeholder_file with
      | error e =>
        rw [process_eq_of_construct_error args env policy e hp hc] at hq
        simp [constructTrace, policyTrace_no_dump args env q] at hq
      | ok u =>
        cases hd : env.loadDoc args.infile with
        | error e =>
          rw [process_eq_of_doc_error args env policy u e hp hc hd] at hq
          exact absurd hq (docTrace_no_dump args env q)
        | ok u2 =>
          cases u2
          cases hi : env.loadPii args.pii with
          | error e =>
            rw [process_eq_of_pii_error args env policy u e hp hc hd hi] at hq
            exact absurd hq (piiTrace_no_dump args env q)
          | ok u3 =>
            cases u3
            cases ht : env.transform with
            | error e =>
              rw [process_eq_of_transform_error args env policy u e
                  hp hc hd hi ht] at hq
              exact absurd hq (transformTrace_no_dump args env q)
            | ok u4 =>
              cases u4
              rfl
  refine ⟨part1, ?_⟩
  intro e q htr hq
  have h := part1 q hq
  rw [htr] at h
  exact absurd h (by simp)

theorem claim_C6_witness :
    Event.dump "out.yaml" ∈ (process sampleArgs sampleEnv).fst ∧
    sampleEnv.transform = Except.ok () := by
  have h : Event.dump "out.yaml" ∈ (process sampleArgs sampleEnv).fst := by
    decide
  exact ⟨h,
    (claim_C6_no_dump_on_transform_error sampleArgs sampleEnv).1 "out.yaml" h⟩

/-- C4: every exception raised inside `process` is surfaced by `main`: the
error message is printed to stderr, and `main` re-raises the exception
exactly when `--reraise` was given and otherwise exits with status 1;
a success outcome of `main` is only possible when `process` succeeded. -/
theorem claim_C4_main_surfaces_errors (args : Args) (env : Env) :
    (∀ e, (process args env).snd = Except.error e →
       (main args env).fst = (process args env).fst ++ [Event.printErr e] ∧
       (main args env).snd
           = (if args.reraise then Outcome.raised e else Outcome.exited 1)) ∧
    ((main args env).snd = Outcome.success →
       (process args env).snd = Except.ok ()) := by
  constructor
  · intro e he
    cases hr : args.reraise <;> simp [main, he, hr]
  · intro hs
    cases hres : (process args env).snd with
    | error e =>
      cases hr : args.reraise <;> simp [main, hres, hr] at hs
    | ok u =>
      cases u
      rfl

/-- An environment in which the transformation step raises. -/
def failEnv : Env :=
  ⟨fun _ => Except.ok Json.null, fun _ _ _ => Except.ok (),
   fun _ => Except.ok (), fun _ => Except.ok (),
   Except.error PErr.policyErr, fun _ => Except.ok ()⟩

theorem claim_C4_witness :
    (process sampleArgs failEnv).snd = Except.error PErr.policyErr ∧
    (main sampleArgs failEnv).fst
        = (process sampleArgs failEnv).fst ++ [Event.printErr PErr.policyErr] ∧
    (main sampleArgs failEnv).snd
        = (if sampleArgs.reraise then Outcome.raised PErr.policyErr
           else Outcome.exited 1) := by
  have h : (process sampleArgs failEnv).snd = Except.error PErr.policyErr := by
    rfl
  have h2 := (claim_C4_main_surfaces_errors sampleArgs failEnv).1
    PErr.policyErr h
  exact ⟨h, h2.1, h2.2⟩

/-- C5: in `process`, when `--hash-key` is supplied and non-empty and the
default policy is the string `"hash"`, the value passed as default policy
to the `PiiTransformer` constructor is the mapping
`{"name": "hash", "key": hash_key}`; in every other combination the
command-line value is passed through unchanged — and the constructor
really receives `effectiveDefaultPolicy` of those arguments. -/
theorem claim_C5_hash_key_default_policy (hk dp : Option String) :
    (∀ k, hk = some k → k ≠ "" → dp = some "hash" →
       effectiveDefaultPolicy hk dp = PolicyValue.hashDict k) ∧
    (¬(truthy hk = true ∧ dp = some "hash") →
       effectiveDefaultPolicy hk dp = policyValueOfOpt dp) ∧
    (∀ (args : Args) (env : Env) (policy : Option Json),
       args.hash_key = hk → args.default_policy = dp →
       (get_policy args.policy_file args.verbose env.readJson).snd
           = Except.ok policy →
       env.construct (effectiveDefaultPolicy hk dp) policy
           args.placeholder_file = Except.error PErr.config →
       (process args env).snd = Except.error PErr.config) := by
  refine ⟨?_, ?_, ?_⟩
  · intro k hk1 hk2 hdp
    subst hk1; subst hdp
    simp [effectiveDefaultPolicy, truthy, hk2]
  · intro hns
    rw [effectiveDefaultPolicy, if_neg hns]
  · intro args env policy h1 h2 hp hc
    subst h1; subst h2
    rw [process_eq_of_construct_error args env policy PErr.config hp hc]

theorem claim_C5_witness :
    effectiveDefaultPolicy (some "k1") (some "hash")
        = PolicyValue.hashDict "k1" ∧
    effectiveDefaultPolicy none (some "label")
        = policyValueOfOpt (some "label") :=
  ⟨(claim_C5_hash_key_default_policy (some "k1") (some "hash")).1
      "k1" rfl (by decide) rfl,
   (claim_C5_hash_key_default_policy none (some "label")).2.1 (by decide)⟩

/-- C8: `get_policy` returns `None` when the policy-file argument is
absent or empty, and for a non-empty path it returns the JSON-parsed
content of that file; the value it returns is precisely what `process`
hands to the `PiiTransformer` constructor as its policy configuration. -/
theorem claim_C8_get_policy (v : Bool) (rj : String → Except PErr Json) :
    (get_policy none v rj).snd = Except.ok none ∧
    (get_policy (some "") v rj).snd = Except.ok none ∧
    (∀ p j, p ≠ "" → rj p = Except.ok j →
       (get_policy (some p) v rj).snd = Except.ok (some j)) ∧
    (∀ (args : Args) (env : Env) (policy : Option Json),
       (get_policy args.policy_file args.verbose env.readJson).snd
           = Except.ok policy →
       env.construct (effectiveDefaultPolicy args.hash_key args.default_policy)
           policy args.placeholder_file = Except.error PErr.config →
       (process args env).snd = Except.error PErr.config) := by
  refine ⟨rfl, by simp [get_policy], ?_, ?_⟩
  · intro p j hp hrj
    simp [get_policy, hp, hrj, Except.map]
  · intro args env policy hp hc
    rw [process_eq_of_construct_error args env policy PErr.config hp hc]

theorem claim_C8_witness :
    (get_policy none false (fun _ => Except.ok Json.null)).snd
        = Except.ok none ∧
    (get_policy (some "pol.json") false
        (fun _ => Except.ok (Json.str "cfg"))).snd
        = Except.ok (some (Json.str "cfg")) :=
  ⟨(claim_C8_get_policy false (fun _ => Except.ok Json.null)).1,
   (claim_C8_get_policy false (fun _ => Except.ok (Json.str "cfg"))).2.2.1
      "pol.json" (Json.str "cfg") (by decide) rfl⟩

theorem traces_no_logMsg_of_quiet (args : Args) (env : Env) (m : String)
    (hv : args.verbose = false) :
    Event.logMsg m ∉ policyTrace args env ∧
    Event.logMsg m ∉ constructTrace args env ∧
    Event.logMsg m ∉ docTrace args env ∧
    Event.logMsg m ∉ piiTrace args env ∧
    Event.logMsg m ∉ transformTrace args env ∧
    Event.logMsg m ∉ dumpTrace args env := by
  have h0 := policyTrace_no_logMsg_of_quiet args env m hv
  refine ⟨h0, ?_, ?_, ?_, ?_, ?_⟩ <;>
    simp [dumpTrace, transformTrace, piiTrace, docTrace, constructTrace,
      logEv, hv, h0]

/-- C10: a `Log` built with `verbose=False` produces no output at all,
and one built with `verbose=True` writes the message to stderr and never
to stdout; consequently a quiet run of `process` emits no log message. -/
theorem claim_C10_log_quiet_and_stderr (msg : String) :
    logWrites false msg = [] ∧
    logWrites true msg = [(Channel.stderr, msg)] ∧
    (∀ (args : Args) (env : Env) (m : String), args.verbose = false →
       Event.logMsg m ∉ (process args env).fst) := by
  refine ⟨rfl, rfl, ?_⟩
  intro args env m hv
  have htr := traces_no_logMsg_of_quiet args env m hv
  cases hp : (get_policy args.policy_file args.verbose env.readJson).snd with
  | error e =>
    rw [process_eq_of_policy_error args env e hp]
    exact htr.1
  | ok policy =>
    cases hc : env.construct
        (effectiveDefaultPolicy args.hash_key args.default_policy)
        policy args.placeholder_file with
    | error e =>
      rw [process_eq_of_construct_error args env policy e hp hc]
      exact htr.2.1
    | ok u =>
      cases hd : env.loadDoc args.infile with
      | error e =>
        rw [process_eq_of_doc_error args env policy u e hp hc hd]
        exact htr.2.2.1
      | ok u2 =>
        cases u2
        cases hi : env.loadPii args.pii with
        | error e =>
          rw [process_eq_of_pii_error args env policy u e hp hc hd hi]
          exact htr.2.2.2.1
        | ok u3 =>
          cases u3
          cases ht : env.transform with
          | error e =>
            rw [process_eq_of_transform_error args env policy u e hp hc hd hi ht]
            exact htr.2.2.2.2.1
          | ok u4 =>
            cases u4
            cases hu : env.dump args.outfile with
            | error e =>
              rw [process_eq_of_dump_error args env policy u e hp hc hd hi ht hu]
              exact htr.2.2.2.2.2
            | ok u5 =>
              cases u5
              rw [process_eq_of_all_ok args env policy u hp hc hd hi ht hu]
              exact htr.2.2.2.2.2

theorem claim_C10_witness :
    logWrites false "hello" = [] ∧
    logWrites true "hello" = [(Channel.stderr, "hello")] ∧
    Event.logMsg "hello" ∉ (process sampleArgs sampleEnv).fst :=
  ⟨(claim_C10_log_quiet_and_stderr "hello").1,
   (claim_C10_log_quiet_and_stderr "hello").2.1,
   (claim_C10_log_quiet_and_stderr "hello").2.2 sampleArgs sampleEnv
      "hello" rfl⟩

/-- C7: a `--default-policy` value outside the `POLICIES` catalog is
rejected by `parse_args` (argparse `choices`), so the whole entry point
fails before `process` — and hence before any transformer construction
or document access — while every catalog member is accepted and passed
through. -/
theorem claim_C7_default_policy_choices (raw : RawArgs) (env : Env)
    (v : String) (hv : raw.default_policy = some v) :
    (v ∉ POLICIES →
       mainFull raw env = Except.error
         ("argument --default-policy: invalid choice: " ++ v)) ∧
    (v ∈ POLICIES → ∃ args, parse_args raw = Except.ok args ∧
       args.default_policy = some v) := by
  constructor
  · intro h
    simp [mainFull, parse_args, hv, h]
  · intro h
    exact ⟨⟨raw.infile, raw.pii, raw.outfile, some v, raw.policy_file,
      raw.placeholder_file, raw.hash_key, raw.verbose, raw.reraise,
      raw.show_stats, raw.show_tasks⟩, by simp [parse_args, hv, h], rfl⟩

/-- A raw command line with an unregistered default policy. -/
def sampleRawBad : RawArgs :=
  ⟨"in.yaml", "pii.json", "out.yaml", some "bogus", none, none, none,
   false, false, false, false⟩

/-- A raw command line with a registered default policy. -/
def sampleRawOk : RawArgs :=
  ⟨"in.yaml", "pii.json", "out.yaml", some "label", none, none, none,
   false, false, false, false⟩

theorem claim_C7_witness :
    mainFull sampleRawBad sampleEnv = Except.error
      ("argument --default-policy: invalid choice: " ++ "bogus") ∧
    ∃ args, parse_args sampleRawOk = Except.ok args ∧
      args.default_policy = some "label" :=
  ⟨(claim_C7_default_policy_choices sampleRawBad sampleEnv "bogus" rfl).1
      (by decide),
   (claim_C7_default_policy_choices sampleRawOk sampleEnv "label" rfl).2
      (by decide)⟩

/-!
## Structural fidelity of the modelled engine
-/

theorem rewriteChunk_id {repl : PiiOccurrence → String}
    {occs : List PiiOccurrence} {c c2 : Chunk}
    (h : rewriteChunk repl occs c = Except.ok c2) : c2.id = c.id := by
  unfold rewriteChunk at h
  cases hr : rewriteText repl c.text (occsFor occs c.id) with
  | error e => rw [hr] at h; simp [Except.map] at h
  | ok t =>
    rw [hr] at h
    simp [Except.map] at h
    subst h
    rfl

theorem rewriteChunks_ids (repl : PiiOccurrence → String)
    (occs : List PiiOccurrence) :
    ∀ (cs cs2 : List Chunk), rewriteChunks repl occs cs = Except.ok cs2 →
      cs2.map Chunk.id = cs.map Chunk.id
  | [], cs2, h => by
    simp [rewriteChunks] at h
    subst h
    rfl
  | c :: cs, cs2, h => by
    unfold rewriteChunks at h
    cases h1 : rewriteChunk repl occs c with
    | error e => rw [h1] at h; simp at h
    | ok c2 =>
      rw [h1] at h
      cases h2 : rewriteChunks repl occs cs with
      | error e => rw [h2] at h; simp at h
      | ok cs2' =>
        rw [h2] at h
        simp at h
        subst h
        simp [rewriteChunk_id h1, rewriteChunks_ids repl occs cs cs2' h2]

mutual

theorem rewriteNode_shape (repl : PiiOccurrence → String)
    (occs : List PiiOccurrence) :
    ∀ (t t2 : TreeNode), rewriteNode repl occs t = Except.ok t2 →
      nodeShape t2 = nodeShape t
  | TreeNode.leaf c, t2, h => by
    unfold rewriteNode at h
    cases h1 : rewriteChunk repl occs c with
    | error e => rw [h1] at h; simp [Except.map] at h
    | ok c2 =>
      rw [h1] at h
      simp [Except.map] at h
      subst h
      simp [nodeShape, rewriteChunk_id h1]
  | TreeNode.node i cs, t2, h => by
    unfold rewriteNode at h
    cases h1 : rewriteNodes repl occs cs with
    | error e => rw [h1] at h; simp [Except.map] at h
    | ok cs2 =>
      rw [h1] at h
      simp [Except.map] at h
      subst h
      simp [nodeShape, rewriteNodes_shape repl occs cs cs2 h1]

theorem rewriteNodes_shape (repl : PiiOccurrence → String)
    (occs : List PiiOccurrence) :
    ∀ (ts ts2 : List TreeNode), rewriteNodes repl occs ts = Except.ok ts2 →
      nodeShapes ts2 = nodeShapes ts
  | [], ts2, h => by
    simp [rewriteNodes] at h
    subst h
    rfl
  | t :: ts, ts2, h => by
    unfold rewriteNodes at h
    cases h1 : rewriteNode repl occs t with
    | error e => rw [h1] at h; simp at h
    | ok t2 =>
      rw [h1] at h
      cases h2 : rewriteNodes repl occs ts with
      | error e => rw [h2] at h; simp at h
      | ok ts2' =>
        rw [h2] at h
        simp at h
        subst h
        simp [nodeShapes, rewriteNode_shape repl occs t t2 h1,
          rewriteNodes_shape repl occs ts ts2' h2]

end

theorem rewriteRows_ids (repl : PiiOccurrence → String)
    (occs : List PiiOccurrence) :
    ∀ (rows rows2 : List (List Chunk)),
      rewriteRows repl occs rows = Except.ok rows2 →
      rows2.map (fun r => r.map Chunk.id) = rows.map (fun r => r.map Chunk.id)
  | [], rows2, h => by
    simp [rewriteRows] at h
    subst h
    rfl
  | row :: rows, rows2, h => by
    unfold rewriteRows at h
    cases h1 : rewriteChunks repl occs row with
    | error e => rw [h1] at h; simp at h
    | ok row2 =>
      rw [h1] at h
      cases h2 : rewriteRows repl occs rows with
      | error e => rw [h2] at h; simp at h
      | ok rows2' =>
        rw [h2] at h
        simp at h
        subst h
        simp [rewriteChunks_ids repl occs row row2 h1,
          rewriteRows_ids repl occs rows rows2' h2]

/-- C1: for every input document — sequence, tree, or table — and every
occurrence collection, a successful application of the transformer yields
a document of exactly the same structural shape: same variant, same chunk
ids, same nesting/rows/columns, same ordering; only leaf text differs. -/
theorem claim_C1_structural_fidelity (cfg : TransformerCfg)
    (occs : List PiiOccurrence) (doc out : Document)
    (h : applyTrf cfg occs doc = Except.ok out) :
    shape out = shape doc := by
  cases doc with
  | seq chunks =>
    cases h1 : rewriteChunks (replacementFor cfg) occs chunks with
    | error e => simp [applyTrf, h1, Except.map] at h
    | ok cs2 =>
      simp [applyTrf, h1, Except.map] at h
      subst h
      simp [shape, rewriteChunks_ids (replacementFor cfg) occs chunks cs2 h1]
  | tree roots =>
    cases h1 : rewriteNodes (replacementFor cfg) occs roots with
    | error e => simp [applyTrf, h1, Except.map] at h
    | ok ts2 =>
      simp [applyTrf, h1, Except.map] at h
      subst h
      simp [shape, rewriteNodes_shape (replacementFor cfg) occs roots ts2 h1]
  | table rows =>
    cases h1 : rewriteRows (replacementFor cfg) occs rows with
    | error e => simp [applyTrf, h1, Except.map] at h
    | ok rows2 =>
      simp [applyTrf, h1, Except.map] at h
      subst h
      simp [shape, rewriteRows_ids (replacementFor cfg) occs rows rows2 h1]

/-- A tiny configuration and document for the engine witnesses. -/
def sampleCfg : TransformerCfg := ⟨some Policy.label, []⟩

/-- A one-chunk sequence document. -/
def sampleDoc : Document := Document.seq [⟨"c1", "Contact Jane"⟩]

theorem claim_C1_witness :
    applyTrf sampleCfg [⟨"PERSON", "c1", 8, 4, "Jane"⟩] sampleDoc
        = Except.ok (Document.seq [⟨"c1", "Contact <PERSON>"⟩]) ∧
    shape (Document.seq [⟨"c1", "Contact <PERSON>"⟩]) = shape sampleDoc := by
  have h : applyTrf sampleCfg [⟨"PERSON", "c1", 8, 4, "Jane"⟩] sampleDoc
      = Except.ok (Document.seq [⟨"c1", "Contact <PERSON>"⟩]) := by rfl
  exact ⟨h, claim_C1_structural_fidelity sampleCfg _ sampleDoc _ h⟩

/-!
## Overlap rejection in the modelled engine
-/

theorem occConflict_symm {a b : PiiOccurrence}
    (h : occConflict a b = true) : occConflict b a = true := by
  simp [occConflict] at h ⊢
  rcases h with ⟨ha, hb⟩ | he
  · exact Or.inl ⟨hb, ha⟩
  · exact Or.inr he.symm

theorem anyConflict_of_pair :
    ∀ (l : List PiiOccurrence) (o1 o2 : PiiOccurrence),
      o1 ∈ l → o2 ∈ l → o1 ≠ o2 → occConflict o1 o2 = true →
      anyConflict l = true := by
  intro l
  induction l with
  | nil => intro o1 o2 h1 _ _ _; simp at h1
  | cons hd rest ih =>
    intro o1 o2 h1 h2 hne hconf
    simp only [anyConflict, Bool.or_eq_true, List.any_eq_true]
    rcases List.mem_cons.mp h1 with rfl | hm1
    · rcases List.mem_cons.mp h2 with rfl | hm2
      · exact absurd rfl hne
      · exact Or.inl ⟨o2, hm2, hconf⟩
    · rcases List.mem_cons.mp h2 with rfl | hm2
      · exact Or.inl ⟨o1, hm1, occConflict_symm hconf⟩
      · exact Or.inr (ih o1 o2 hm1 hm2 hne hconf)

theorem rewriteText_ok_no_conflict {repl : PiiOccurrence → String}
    {text t : String} {l : List PiiOccurrence}
    (h : rewriteText repl text l = Except.ok t) :
    anyConflict l = false := by
  unfold rewriteText at h
  by_cases hc : anyConflict l = true
  · simp [hc] at h
  · simp at hc
    exact hc

theorem rewriteChunk_ok_no_conflict {repl : PiiOccurrence → String}
    {occs : List PiiOccurrence} {c c2 : Chunk}
    (h : rewriteChunk repl occs c = Except.ok c2) :
    anyConflict (occsFor occs c.id) = false := by
  unfold rewriteChunk at h
  cases hr : rewriteText repl c.text (occsFor occs c.id) with
  | error e => rw [hr] at h; simp [Except.map] at h
  | ok t => exact rewriteText_ok_no_conflict hr

theorem rewriteChunks_ok_no_conflict (repl : PiiOccurrence → String)
    (occs : List PiiOccurrence) :
    ∀ (cs cs2 : List Chunk), rewriteChunks repl occs cs = Except.ok cs2 →
      ∀ c ∈ cs, anyConflict (occsFor occs c.id) = false
  | [], cs2, h => by intro c hc; simp at hc
  | c0 :: cs, cs2, h => by
    unfold rewriteChunks at h
    cases h1 : rewriteChunk repl occs c0 with
    | error e => rw [h1] at h; simp at h
    | ok c2 =>
      rw [h1] at h
      cases h2 : rewriteChunks repl occs cs with
      | error e => rw [h2] at h; simp at h
      | ok cs2' =>
        intro c hc
        rcases List.mem_cons.mp hc with rfl | hmem
        · exact rewriteChunk_ok_no_conflict h1
        · exact rewriteChunks_ok_no_conflict repl occs cs cs2' h2 c hmem

mutual

theorem rewriteNode_ok_no_conflict (repl : PiiOccurrence → String)
    (occs : List PiiOccurrence) :
    ∀ (t : TreeNode) (t2 : TreeNode),
      rewriteNode repl occs t = Except.ok t2 →
      ∀ c ∈ nodeChunks t, anyConflict (occsFor occs c.id) = false
  | TreeNode.leaf c0, t2, h => by
    intro c hc
    simp [nodeChunks] at hc
    rw [hc]
    unfold rewriteNode at h
    cases h1 : rewriteChunk repl occs c0 with
    | error e => rw [h1] at h; simp [Except.map] at h
    | ok c2 => exact rewriteChunk_ok_no_conflict h1
  | TreeNode.node i cs, t2, h => by
    intro c hc
    simp only [nodeChunks] at hc
    unfold rewriteNode at h
    cases h1 : rewriteNodes repl occs cs with
    | error e => rw [h1] at h; simp [Except.map] at h
    | ok cs2 => exact rewriteNodes_ok_no_conflict repl occs cs cs2 h1 c hc

theorem rewriteNodes_ok_no_conflict (repl : PiiOccurrence → String)
    (occs : List PiiOccurrence) :
    ∀ (ts : List TreeNode) (ts2 : List TreeNode),
      rewriteNodes repl occs ts = Except.ok ts2 →
      ∀ c ∈ nodeChunksL ts, anyConflict (occsFor occs c.id) = false
  | [], ts2, h => by intro c hc; simp [nodeChunksL] at hc
  | t :: ts, ts2, h => by
    unfold rewriteNodes at h
    cases h1 : rewriteNode repl occs t with
    | error e => rw [h1] at h; simp at h
    | ok t2 =>
      rw [h1] at h
      cases h2 : rewriteNodes repl occs ts with
      | error e => rw [h2] at h; simp at h
      | ok ts2' =>
        intro c hc
        simp only [nodeChunksL, List.mem_append] at hc
        rcases hc with hc | hc
        · exact rewriteNode_ok_no_conflict repl occs t t2 h1 c hc
        · exact rewriteNodes_ok_no_conflict repl occs ts ts2' h2 c hc

end

theorem rewriteRows_ok_no_conflict (repl : PiiOccurrence → String)
    (occs : List PiiOccurrence) :
    ∀ (rows rows2 : List (List Chunk)),
      rewriteRows repl occs rows = Except.ok rows2 →
      ∀ c ∈ rows.flatten, anyConflict (occsFor occs c.id) = false
  | [], rows2, h => by intro c hc; simp at hc
  | row :: rows, rows2, h => by
    unfold rewriteRows at h
    cases h1 : rewriteChunks repl occs row with
    | error e => rw [h1] at h; simp at h
    | ok row2 =>
      rw [h1] at h
      cases h2 : rewriteRows repl occs rows with
      | error e => rw [h2] at h; simp at h
      | ok rows2' =>
        intro c hc
        simp only [List.flatten_cons, List.mem_append] at hc
        rcases hc with hc | hc
        · exact rewriteChunks_ok_no_conflict repl occs row row2 h1 c hc
        · exact rewriteRows_ok_no_conflict repl occs rows rows2' h2 c hc

theorem applyTrf_ok_no_conflict (cfg : TransformerCfg)
    (occs : List PiiOccurrence) (doc out : Document)
    (h : applyTrf cfg occs doc = Except.ok out) :
    ∀ c ∈ docChunks doc, anyConflict (occsFor occs c.id) = false := by
  intro c hc
  cases doc with
  | seq chunks =>
    cases h1 : rewriteChunks (replacementFor cfg) occs chunks with
    | error e => simp [applyTrf, h1, Except.map] at h
    | ok cs2 =>
      exact rewriteChunks_ok_no_conflict (replacementFor cfg) occs chunks cs2
        h1 c (by simpa [docChunks] using hc)
  | tree roots =>
    cases h1 : rewriteNodes (replacementFor cfg) occs roots with
    | error e => simp [applyTrf, h1, Except.map] at h
    | ok ts2 =>
      exact rewriteNodes_ok_no_conflict (replacementFor cfg) occs roots ts2
        h1 c (by simpa [docChunks] using hc)
  | table rows =>
    cases h1 : rewriteRows (replacementFor cfg) occs rows with
    | error e => simp [applyTrf, h1, Except.map] at h
    | ok rows2 =>
      exact rewriteRows_ok_no_conflict (replacementFor cfg) occs rows rows2
        h1 c (by simpa [docChunks] using hc)

/-- C3: whenever two distinct occurrences owned by the same chunk of the
document have overlapping `[start, start+length)` ranges, applying the
transformer raises `DataIntegrityError` and produces no output document. -/
theorem claim_C3_overlap_raises (cfg : TransformerCfg)
    (occs : List PiiOccurrence) (doc : Document) (c : Chunk)
    (o1 o2 : PiiOccurrence)
    (hc : c ∈ docChunks doc)
    (h1 : o1 ∈ occs) (h2 : o2 ∈ occs)
    (hid1 : o1.chunkid = c.id) (hid2 : o2.chunkid = c.id)
    (hne : o1 ≠ o2)
    (hov1 : o1.start < o2.start + o2.length)
    (hov2 : o2.start < o1.start + o1.length) :
    ∃ e, applyTrf cfg occs doc = Except.error e := by
  cases happ : applyTrf cfg occs doc with
  | error e => exact ⟨e, rfl⟩
  | ok out =>
    exfalso
    have hno := applyTrf_ok_no_conflict cfg occs doc out happ c hc
    have hmem1 : o1 ∈ occsFor occs c.id := by simp [occsFor, h1, hid1]
    have hmem2 : o2 ∈ occsFor occs c.id := by simp [occsFor, h2, hid2]
    have hconf : occConflict o1 o2 = true := by
      simp [occConflict]
      exact Or.inl ⟨hov1, hov2⟩
    have hall := anyConflict_of_pair (occsFor occs c.id) o1 o2
      hmem1 hmem2 hne hconf
    rw [hno] at hall
    exact Bool.false_ne_true hall

/-- A one-chunk document whose chunk carries two overlapping occurrences
in the witness below. -/
def sampleDoc3 : Document := Document.seq [⟨"c1", "abcdef"⟩]

theorem claim_C3_witness :
    (⟨"c1", "abcdef"⟩ : Chunk) ∈ docChunks sampleDoc3 ∧
    (⟨"PERSON", "c1", 0, 3, "abc"⟩ : PiiOccurrence)
        ∈ [(⟨"PERSON", "c1", 0, 3, "abc"⟩ : PiiOccurrence),
           ⟨"EMAIL", "c1", 2, 3, "cde"⟩] ∧
    (⟨"EMAIL", "c1", 2, 3, "cde"⟩ : PiiOccurrence)
        ∈ [(⟨"PERSON", "c1", 0, 3, "abc"⟩ : PiiOccurrence),
           ⟨"EMAIL", "c1", 2, 3, "cde"⟩] ∧
    ∃ e, applyTrf sampleCfg
        [⟨"PERSON", "c1", 0, 3, "abc"⟩, ⟨"EMAIL", "c1", 2, 3, "cde"⟩]
        sampleDoc3 = Except.error e := by
  refine ⟨by decide, by decide, by decide, ?_⟩
  exact claim_C3_overlap_raises sampleCfg _ sampleDoc3 ⟨"c1", "abcdef"⟩
    ⟨"PERSON", "c1", 0, 3, "abc"⟩ ⟨"EMAIL", "c1", 2, 3, "cde"⟩
    (by decide) (by decide) (by decide) (by decide) (by decide) (by decide)
    (by decide) (by decide)

/-- A transformer configured with `hash` as the default policy. -/
def cfgHash : TransformerCfg := ⟨some (Policy.hash "key"), []⟩

/-- C9: the `hash` policy is a deterministic function of the original
value and the key — any two occurrences with the same original value
whose resolved policy is `hash` with the same key receive the identical
replacement string, across chunks, documents and transformer instances. -/
theorem claim_C9_hash_deterministic (k : String)
    (cfg1 cfg2 : TransformerCfg) (o1 o2 : PiiOccurrence)
    (h1 : resolvePolicy cfg1 o1.entityType = Policy.hash k)
    (h2 : resolvePolicy cfg2 o2.entityType = Policy.hash k)
    (hv : o1.value = o2.value) :
    replacementFor cfg1 o1 = replacementFor cfg2 o2 := by
  simp [replacementFor, h1, h2, applyPolicy, hv]

theorem claim_C9_witness :
    resolvePolicy cfgHash "PERSON" = Policy.hash "key" ∧
    resolvePolicy cfgHash "NAME" = Policy.hash "key" ∧
    replacementFor cfgHash ⟨"PERSON", "c1", 0, 4, "Jane"⟩
        = replacementFor cfgHash ⟨"NAME", "c9", 7, 4, "Jane"⟩ :=
  ⟨rfl, rfl,
   claim_C9_hash_deterministic "key" cfgHash cfgHash
     ⟨"PERSON", "c1", 0, 4, "Jane"⟩ ⟨"NAME", "c9", 7, 4, "Jane"⟩
     rfl rfl rfl⟩

end PiiTransform
